import Mathlib

set_option maxRecDepth 10000

namespace WordToTable

/- Shallow embedding of scripts/smart_table_extractor.py and scripts/word_to_table.py.
   Python strings are Lean `String`; machine text predicates are restricted to the
   ASCII behaviour of the Python originals, which is the only range exercised here. -/

def toL (s : String) : List Char := s.data

def ofL (cs : List Char) : String := ⟨cs⟩

/-- Characters matched by Python's `\s` (ASCII range). -/
def isSpaceChar (c : Char) : Bool :=
  c == ' ' || c == '\t' || c == '\n' || c == '\r' || c == '\x0b' || c == '\x0c'

/-- Characters matched by Python's `\w` (ASCII range). -/
def isWordChar (c : Char) : Bool :=
  c.isAlphanum || c == '_'

/-- Whitespace-delimited words of a character list (accumulator holds the current
    word reversed). -/
def wordsAux : List Char → List Char → List (List Char)
  | [], acc => if acc.isEmpty then [] else [acc.reverse]
  | c :: rest, acc =>
    if isSpaceChar c then
      if acc.isEmpty then wordsAux rest [] else acc.reverse :: wordsAux rest []
    else wordsAux rest (c :: acc)

def joinSpace : List (List Char) → List Char
  | [] => []
  | [w] => w
  | w :: ws => w ++ ' ' :: joinSpace ws

/-- Embeds `re.sub(r'\s+', ' ', text).strip()`: collapse whitespace runs and trim,
    i.e. the whitespace-separated words joined by single spaces. -/
def cleanText (s : String) : String :=
  ofL (joinSpace (wordsAux (toL s) []))

/-- Embeds Python `str.strip()` (ASCII whitespace). -/
def pyStrip (s : String) : String :=
  ofL ((((toL s).dropWhile isSpaceChar).reverse.dropWhile isSpaceChar).reverse)

/-- Embeds Python `str.isdigit()` (ASCII range). -/
def pyIsDigit (s : String) : Bool :=
  !(toL s).isEmpty && (toL s).all Char.isDigit

/-- Consume one or more decimal digits, returning the rest of the input. -/
def digits1 : List Char → Option (List Char)
  | c :: rest => if c.isDigit then some (rest.dropWhile Char.isDigit) else none
  | [] => none

/-- Python `$`: end of string, or just before a single trailing newline. -/
def endOk (cs : List Char) : Bool :=
  cs.isEmpty || cs == ['\n']

def floatTail (cs : List Char) : Bool :=
  endOk cs ||
    (match cs with
     | '.' :: rest =>
       (match digits1 rest with
        | some r => endOk r
        | none => false)
     | _ => false)

/-- Embeds `re.match(r'^-?\d+(\.\d+)?$', t)` viewed as a Bool. -/
def floatMatch (s : String) : Bool :=
  let cs := toL s
  let cs := match cs with
            | '-' :: rest => rest
            | other => other
  match digits1 cs with
  | some r => floatTail r
  | none => false

inductive CellType where
  | empty
  | int
  | float
  | text
deriving DecidableEq

/-- Classification of one cell in `analyze_column_types`. -/
def cellType (t : String) : CellType :=
  if t == "" then .empty
  else if pyIsDigit t then .int
  else if floatMatch t then .float
  else .text

/-- First-encountered most frequent element, as `statistics.mode` /
    `Counter.most_common(1)` return on Python 3.8+. -/
def modeFirst (l : List Nat) : Nat :=
  match l with
  | [] => 0
  | x :: _ => l.foldl (fun best y => if l.count y > l.count best then y else best) x

/-- Embeds `analyze_patterns`: modal non-empty length and the consistency flag.
    The source compares `match_count / len(lengths) > 0.7` on floats; this is the
    same comparison written exactly over naturals. -/
def analyzePatterns (texts : List String) : Nat × Bool :=
  let lengths := (texts.filter (fun t => t != "")).map String.length
  match lengths with
  | [] => (0, false)
  | _ :: _ =>
    let m := modeFirst lengths
    let mc := (lengths.filter (fun l => l == m)).length
    (m, decide (10 * mc > 7 * lengths.length))

/-- Index (counting from `i`) of the first string of length `m`. -/
def firstLenIdx (m : Nat) : Nat → List String → Option Nat
  | _, [] => none
  | i, t :: rest => if t.length == m then some i else firstLenIdx m (i + 1) rest

/-- Pattern-signal vote of one column (`process_table`, pattern logic): on a
    consistent column, the first cell whose length is modal votes, but only when
    its index is positive — the loop breaks without voting at index 0. -/
def patternVote (texts : List String) : Option Nat :=
  let p := analyzePatterns texts
  if p.2 then
    match firstLenIdx p.1 0 texts with
    | some i => if 0 < i then some i else none
    | none => none
  else none

/-- Datatype-run scan of `process_table` (datatype logic): state is the current
    run length and the run-start index, `-1` meaning none recorded. -/
def datatypeScan : List CellType → Nat → Nat → Int → Nat × Int
  | [], _, run, fidx => (run, fidx)
  | t :: rest, i, run, fidx =>
    match t with
    | .int => datatypeScan rest (i + 1) (run + 1) (if run == 0 then (i : Int) else fidx)
    | .float => datatypeScan rest (i + 1) (run + 1) (if run == 0 then (i : Int) else fidx)
    | .empty =>
      if run > 0 then
        if run ≥ 2 then (run, fidx)
        else datatypeScan rest (i + 1) 0 (-1)
      else datatypeScan rest (i + 1) run fidx
    | .text =>
      if run ≥ 2 then (run, fidx)
      else datatypeScan rest (i + 1) 0 (-1)

def datatypeVote (types : List CellType) : Option Nat :=
  let r := datatypeScan types 0 0 (-1)
  if r.1 ≥ 1 ∧ r.2 > -1 then some r.2.toNat else none

/-- Column texts as `process_table` gathers them: missing cells read as empty. -/
def columnTexts (rows : List (List String)) (c : Nat) : List String :=
  rows.map (fun r => r.getD c "")

def colVotes (rows : List (List String)) (c : Nat) : List Nat :=
  let ts := columnTexts rows c
  (datatypeVote (ts.map cellType)).toList ++ (patternVote ts).toList

/-- All start-row votes in source order: per column, datatype vote then pattern vote. -/
def startRowVotes (rows : List (List String)) (numCols : Nat) : List Nat :=
  (List.range numCols).flatMap (colVotes rows)

inductive Confidence where
  | low
  | high
  | userDefined
deriving DecidableEq

/-- Consensus step of `process_table`: most common vote, or the fallback row. -/
def consensus (votes : List Nat) (numRows : Nat) : Nat × Confidence :=
  match votes with
  | [] => (if numRows > 1 then 1 else 0, .low)
  | v :: vs => (modeFirst (v :: vs), .high)

/-- Possible behaviours of the injected header-selection callback: absent, raising,
    returning None, returning a non-int, or returning a Python int. -/
inductive CallbackOutcome where
  | noCallback
  | raises
  | retNone
  | retNonInt
  | retInt (n : Int)

/-- Callback escalation of `process_table`: only on low confidence; any int return
    is accepted unvalidated; any failure or non-int return keeps the engine value. -/
def applyCallback (cb : CallbackOutcome) (startRow : Nat) (conf : Confidence) : Int × Confidence :=
  if conf = .low then
    match cb with
    | .retInt n => (n, .userDefined)
    | _ => ((startRow : Int), conf)
  else ((startRow : Int), conf)

/-- Python list indexing `rows[i]` including negative indices; `none` is IndexError. -/
def pyGetRow (rows : List (List String)) (i : Int) : Option (List String) :=
  if 0 ≤ i then rows.get? i.toNat
  else if 0 ≤ (rows.length : Int) + i then rows.get? ((rows.length : Int) + i).toNat
  else none

/-- `all(not cell for cell in row)`. -/
def rowIsEmpty (r : List String) : Bool :=
  r.all (fun t => t == "")

/-- Empty-row adjustment loop; the fuel is exactly the number of remaining
    iterations `start_row < num_rows` allows, so the 0-fuel branch coincides with
    the loop's exit. `none` is an uncaught IndexError from a negative index. -/
def adjustAux (rows : List (List String)) : Nat → Int → Option Int
  | 0, i => some i
  | fuel + 1, i =>
    if i < (rows.length : Int) then
      match pyGetRow rows i with
      | none => none
      | some r => if rowIsEmpty r then adjustAux rows fuel (i + 1) else some i
    else some i

def adjustStartRow (rows : List (List String)) (i : Int) : Option Int :=
  adjustAux rows ((rows.length : Int) - i).toNat i

/-- Header Boundary Inference on the normalized grid: votes, consensus, callback
    escalation, and empty-row adjustment. -/
def inferStartRow (rows : List (List String)) (numCols : Nat) (cb : CallbackOutcome) :
    Option (Int × Confidence) :=
  let votes := startRowVotes rows numCols
  let sc := consensus votes rows.length
  let sc2 := applyCallback cb sc.1 sc.2
  (adjustStartRow rows sc2.1).map (fun s => (s, sc2.2))

def maxRowLen (rows : List (List String)) : Nat :=
  rows.foldl (fun a r => max a r.length) 0

/-- Width normalization of `process_table`: pad with empty strings, then truncate. -/
def normalizeRows (rows : List (List String)) (n : Nat) : List (List String) :=
  rows.map (fun r => (r ++ List.replicate (n - r.length) "").take n)

/-- Title-row detection: one non-empty cell, or all non-empty cells identical. -/
def skipRow0 : List (List String) → Bool
  | [] => false
  | r0 :: _ =>
    let nonEmpty := r0.filter (fun t => t != "")
    let uniq := nonEmpty.eraseDups
    !nonEmpty.isEmpty && (uniq.length == 1 || nonEmpty.length == 1)

/-- Merge one header row into the accumulated header texts (space-joined). The
    caller only passes rows already normalized to the accumulator's width. -/
def mergeRow : List String → List String → List String
  | hs, [] => hs
  | [], _ :: _ => []
  | h :: hs, t :: ts =>
    (if t != "" then (if h != "" then h ++ " " ++ t else t) else h) :: mergeRow hs ts

/-- Replace empty header names by their positional `Column_<i+1>` name. -/
def nameEmpty : Nat → List String → List String
  | _, [] => []
  | i, h :: rest =>
    (if h == "" then "Column_" ++ toString (i + 1) else h) :: nameEmpty (i + 1) rest

def buildHeaders (headerRows : List (List String)) (numCols : Nat) : List String :=
  let rows := if skipRow0 headerRows then headerRows.drop 1 else headerRows
  nameEmpty 0 (rows.foldl mergeRow (List.replicate numCols ""))

/-- Python slice index translation (for `rows[:i]` and `rows[i:]`). -/
def pySliceIdx (len : Nat) (i : Int) : Nat :=
  if i < 0 then ((len : Int) + i).toNat else min i.toNat len

def pyTake (rows : List (List String)) (i : Int) : List (List String) :=
  rows.take (pySliceIdx rows.length i)

def pyDrop (rows : List (List String)) (i : Int) : List (List String) :=
  rows.drop (pySliceIdx rows.length i)

structure Df where
  columns : List String
  rows : List (List String)
deriving DecidableEq

inductive TableResult where
  | raised
  | emptyInput
  | ok (df : Df) (startRow : Int) (conf : Confidence)
deriving DecidableEq

/-- Embeds `SmartTableExtractor.process_table` on the grid of raw cell texts. -/
def processTable (rawRows : List (List String)) (cb : CallbackOutcome) : TableResult :=
  match rawRows with
  | [] => .emptyInput
  | _ :: _ =>
    let rowsData := rawRows.map (fun r => r.map cleanText)
    let numCols := maxRowLen rowsData
    let rows := normalizeRows rowsData numCols
    match inferStartRow rows numCols cb with
    | none => .raised
    | some sc =>
      let headerRows := pyTake rows sc.1
      let dataRows := pyDrop rows sc.1
      let headers := buildHeaders headerRows numCols
      let ndata := dataRows.map (fun r => (r ++ List.replicate (headers.length - r.length) "").take headers.length)
      .ok ⟨headers, ndata⟩ sc.1 sc.2

def resultColumns : TableResult → Option (List String)
  | .ok df _ _ => some df.columns
  | _ => none

def resultRowCount : TableResult → Option Nat
  | .ok df _ _ => some df.rows.length
  | _ => none

def resultStartRow : TableResult → Option Int
  | .ok _ sr _ => some sr
  | _ => none

def resultConfidence : TableResult → Option Confidence
  | .ok _ _ c => some c
  | _ => none

def gridC1 : List (List String) :=
  [["ID", "", "Value", ""],
   ["1", "A", "100", "X"],
   ["2", "B", "200", "Y"],
   ["3", "C", "300", "Z"]]

/-- C1: processing the 4×4 grid with header row ["ID", "", "Value", ""] and three
    data rows, with no header-selection callback, yields columns
    ["ID", "Column_2", "Value", "Column_4"], startRow 1, confidence high, and
    exactly 3 data rows. -/
theorem C1_end_to_end :
    resultColumns (processTable gridC1 .noCallback) = some ["ID", "Column_2", "Value", "Column_4"] ∧
    resultStartRow (processTable gridC1 .noCallback) = some 1 ∧
    resultConfidence (processTable gridC1 .noCallback) = some .high ∧
    resultRowCount (processTable gridC1 .noCallback) = some 3 := by
  refine ⟨?_, ?_, ?_, ?_⟩ <;> rfl

/- ── C2: datatype-run signal ── -/

/-- Spec-phrased datatype-run scan: run length plus an optional recorded
    run-start index, following the wording of the specification. -/
def scanSpec : List CellType → Nat → Nat → Option Nat → Nat × Option Nat
  | [], _, run, st => (run, st)
  | t :: rest, i, run, st =>
    match t with
    | .int => scanSpec rest (i + 1) (run + 1) (if run == 0 then some i else st)
    | .float => scanSpec rest (i + 1) (run + 1) (if run == 0 then some i else st)
    | .empty => if run ≥ 2 then (run, st) else scanSpec rest (i + 1) 0 none
    | .text => if run ≥ 2 then (run, st) else scanSpec rest (i + 1) 0 none

def datatypeVoteSpec (types : List CellType) : Option Nat :=
  match scanSpec types 0 0 none with
  | (run, some st) => if run ≥ 1 then some st else none
  | (_, none) => none

def encIdx : Option Nat → Int
  | none => -1
  | some k => (k : Int)

lemma datatypeScan_eq_spec : ∀ (ts : List CellType) (i run : Nat) (st : Option Nat),
    (run = 0 → st = none) →
    datatypeScan ts i run (encIdx st) =
      ((scanSpec ts i run st).1, encIdx (scanSpec ts i run st).2) := by
  intro ts
  induction ts with
  | nil => intro i run st _; rfl
  | cons t rest ih =>
    intro i run st h
    cases t
    case int =>
      simp only [datatypeScan, scanSpec]
      by_cases hr : run = 0
      · subst hr
        have hst := h rfl; subst hst
        simpa [encIdx] using ih (i + 1) 1 (some i) (by omega)
      · simpa [hr] using ih (i + 1) (run + 1) st (by omega)
    case float =>
      simp only [datatypeScan, scanSpec]
      by_cases hr : run = 0
      · subst hr
        have hst := h rfl; subst hst
        simpa [encIdx] using ih (i + 1) 1 (some i) (by omega)
      · simpa [hr] using ih (i + 1) (run + 1) st (by omega)
    case empty =>
      simp only [datatypeScan, scanSpec]
      by_cases h2 : run ≥ 2
      · rw [if_pos (by omega : run > 0), if_pos h2, if_pos h2]
      · by_cases h0 : run = 0
        · subst h0
          have hst := h rfl; subst hst
          rw [if_neg (by omega : ¬ (0 > 0)), if_neg h2]
          exact ih (i + 1) 0 none (fun _ => rfl)
        · rw [if_pos (by omega : run > 0), if_neg h2, if_neg h2]
          exact ih (i + 1) 0 none (fun _ => rfl)
    case text =>
      simp only [datatypeScan, scanSpec]
      by_cases h2 : run ≥ 2
      · rw [if_pos h2, if_pos h2]
      · rw [if_neg h2, if_neg h2]
        exact ih (i + 1) 0 none (fun _ => rfl)

/-- Per-column cell types as `process_table` computes them. -/
def columnTypes (rows : List (List String)) (c : Nat) : List CellType :=
  (columnTexts rows c).map cellType

lemma cellType_ne_blank {t : String} (h : cellType t = .int ∨ cellType t = .float) :
    t ≠ "" := by
  intro he; subst he
  rcases h with h | h <;> simp [cellType] at h

lemma getD_mem_or (l : List String) (n : Nat) :
    l.getD n "" ∈ l ∨ l.getD n "" = "" := by
  induction l generalizing n with
  | nil => right; rfl
  | cons a t ih =>
    cases n with
    | zero => left; simp [List.getD]
    | succ m =>
      have : (a :: t).getD (m + 1) "" = t.getD m "" := by simp [List.getD]
      rw [this]
      rcases ih m with h | h
      · left; exact List.mem_cons_of_mem a h
      · right; exact h

lemma rowIsEmpty_false_of_mem {r : List String} {x : String}
    (hx : x ∈ r) (hne : x ≠ "") : rowIsEmpty r = false := by
  rw [Bool.eq_false_iff]
  intro hall
  have := List.all_eq_true.mp hall x hx
  exact hne (by simpa using this)

lemma adjustStartRow_stops (rows : List (List String)) (k : Nat)
    (hk : k < rows.length) (r : List String)
    (hr : rows.get? k = some r) (hne : rowIsEmpty r = false) :
    adjustStartRow rows (k : Int) = some (k : Int) := by
  unfold adjustStartRow
  obtain ⟨f, hf⟩ : ∃ f, ((rows.length : Int) - (k : Int)).toNat = f + 1 :=
    ⟨rows.length - k - 1, by omega⟩
  rw [hf]
  simp only [adjustAux]
  rw [if_pos (by exact_mod_cast hk)]
  have hget : pyGetRow rows (k : Int) = some r := by
    unfold pyGetRow
    rw [if_pos (by omega : (0 : Int) ≤ (k : Int))]
    simpa using hr
  rw [hget]
  simp [hne]

/-- C2: the datatype-run scan ends on a text cell exactly when the run is ≥ 2 and
    otherwise resets, treats empty cells the same way once the run is ≥ 2, and
    votes the recorded run-start index whenever the final run is ≥ 1 (the
    source scan equals the spec-phrased scan); consequently, on a grid where one
    column is text in rows 0–1 and int/float from row 2 on and the signals
    produce no other vote, inference returns startRow 2 with confidence high. -/
theorem C2_datatype_run_signal :
    (∀ ts : List CellType, datatypeVote ts = datatypeVoteSpec ts) ∧
    (∀ (rows : List (List String)) (numCols c : Nat) (cb : CallbackOutcome),
      c < numCols →
      3 ≤ rows.length →
      (columnTypes rows c).get? 0 = some .text →
      (columnTypes rows c).get? 1 = some .text →
      (∀ i, i < rows.length → 2 ≤ i →
        (columnTypes rows c).get? i = some .int ∨ (columnTypes rows c).get? i = some .float) →
      startRowVotes rows numCols = [2] →
      inferStartRow rows numCols cb = some (2, .high)) := by
  constructor
  · intro ts
    simp only [datatypeVote, datatypeVoteSpec]
    have h := datatypeScan_eq_spec ts 0 0 none (fun _ => rfl)
    simp only [encIdx] at h
    rcases hp : scanSpec ts 0 0 none with ⟨run, st⟩
    rw [hp] at h
    rw [h]
    cases st with
    | none => simp
    | some k =>
      dsimp only
      by_cases hrun : 1 ≤ run
      · rw [if_pos ⟨hrun, by omega⟩]
        simp [hrun]
      · rw [if_neg (fun hx => hrun hx.1)]
        simp [hrun]
  · intro rows numCols c cb hc hlen h0 h1 hnum hv
    have h2 := hnum 2 (by omega) (by omega)
    have hmap : (columnTypes rows c).get? 2 =
        (rows.get? 2).map (fun r => cellType (r.getD c "")) := by
      simp [columnTypes, columnTexts, List.get?_map, Function.comp_def]
    rw [hmap] at h2
    obtain ⟨r2, hr2, hcell⟩ : ∃ r2, rows.get? 2 = some r2 ∧
        (cellType (r2.getD c "") = .int ∨ cellType (r2.getD c "") = .float) := by
      rcases h2 with h2 | h2
      · obtain ⟨a, ha, hfa⟩ := Option.map_eq_some'.mp h2
        exact ⟨a, ha, Or.inl hfa⟩
      · obtain ⟨a, ha, hfa⟩ := Option.map_eq_some'.mp h2
        exact ⟨a, ha, Or.inr hfa⟩
    have hneb : r2.getD c "" ≠ "" := cellType_ne_blank hcell
    have hmem : r2.getD c "" ∈ r2 := by
      rcases getD_mem_or r2 c with h | h
      · exact h
      · exact absurd h hneb
    have hemp : rowIsEmpty r2 = false := rowIsEmpty_false_of_mem hmem hneb
    have hadj : adjustStartRow rows ((2 : Nat) : Int) = some ((2 : Nat) : Int) :=
      adjustStartRow_stops rows 2 (by omega) r2 hr2 hemp
    have hcons : consensus [2] rows.length = (2, .high) := rfl
    have hcb : applyCallback cb 2 .high = (((2 : Nat) : Int), .high) := by
      unfold applyCallback
      rw [if_neg (by simp)]
    simp only [inferStartRow, hv]
    rw [hcons]
    dsimp only
    rw [hcb]
    dsimp only
    rw [hadj]
    rfl

def gridC2w : List (List String) :=
  [["Name", "Alpha"], ["Item", "Beta"], ["12", "Gamma"], ["345", "Delta"]]

theorem C2_witness :
    inferStartRow gridC2w 2 .noCallback = some (2, .high) :=
  C2_datatype_run_signal.2 gridC2w 2 0 .noCallback (by decide) (by decide)
    (by decide) (by decide) (by decide) (by decide)

/- ── C3: pattern signal ── -/

/-- Index of the first cell strictly after row 0 whose length is modal (the value
    the specification says the pattern signal votes). -/
def firstModalIdxAfter0 (ts : List String) : Option Nat :=
  firstLenIdx (analyzePatterns ts).1 1 (ts.drop 1)

def hasNonEmptyCell (ts : List String) : Bool :=
  !((ts.filter (fun t => t != "")).isEmpty)

/-- C3 fails on the code: this column has a non-empty cell and consistency 3/4 >
    0.7, the first cell strictly after row 0 with the modal length sits at index
    2, yet the pattern signal casts no vote at all, because the first modal-length
    cell overall is row 0 and the scan breaks there without voting. -/
theorem C3_counterexample :
    hasNonEmptyCell ["ab", "x", "cd", "ef"] = true ∧
    (analyzePatterns ["ab", "x", "cd", "ef"]).2 = true ∧
    firstModalIdxAfter0 ["ab", "x", "cd", "ef"] = some 2 ∧
    patternVote ["ab", "x", "cd", "ef"] = none ∧
    patternVote ["ab", "x", "cd", "ef"] ≠ some 2 := by
  refine ⟨rfl, rfl, rfl, rfl, ?_⟩
  decide

lemma firstLenIdx_ge (m : Nat) : ∀ (l : List String) (i j : Nat),
    firstLenIdx m i l = some j → i ≤ j := by
  intro l
  induction l with
  | nil => intro i j h; simp [firstLenIdx] at h
  | cons t rest ih =>
    intro i j h
    simp only [firstLenIdx] at h
    by_cases he : (t.length == m) = true
    · rw [if_pos he] at h
      injection h with h'
      omega
    · rw [if_neg he] at h
      have := ih (i + 1) j h
      omega

/-- C3 amended: on a column with a non-empty cell and consistency above 0.7, the
    pattern signal votes the index of the first modal-length cell when that index
    is positive, and casts no vote when the first modal-length cell is row 0. -/
theorem C3_amended_pattern_vote (ts : List String)
    (h1 : hasNonEmptyCell ts = true)
    (h2 : (analyzePatterns ts).2 = true) :
    patternVote ts =
      (if (ts.headD "").length = (analyzePatterns ts).1 then none
       else firstModalIdxAfter0 ts) := by
  cases ts with
  | nil => simp [hasNonEmptyCell] at h1
  | cons t rest =>
    simp only [patternVote, firstModalIdxAfter0, h2, if_true]
    rw [show (t :: rest).headD "" = t from rfl]
    rw [show (t :: rest).drop 1 = rest from rfl]
    by_cases he : t.length = (analyzePatterns (t :: rest)).1
    · rw [if_pos he]
      simp only [firstLenIdx]
      rw [if_pos (by simpa using he)]
      rfl
    · rw [if_neg he]
      simp only [firstLenIdx]
      rw [if_neg (by simpa using he)]
      rcases hf : firstLenIdx (analyzePatterns (t :: rest)).1 1 rest with _ | j
      · rfl
      · have hj := firstLenIdx_ge _ _ _ _ hf
        dsimp only
        rw [if_pos (by omega)]

theorem C3_witness :
    patternVote ["ab", "x", "cd", "ef"] =
      (if (["ab", "x", "cd", "ef"].headD "").length =
          (analyzePatterns ["ab", "x", "cd", "ef"]).1 then none
       else firstModalIdxAfter0 ["ab", "x", "cd", "ef"]) :=
  C3_amended_pattern_vote ["ab", "x", "cd", "ef"] (by decide) (by decide)

/- ── C8: grid normalization ── -/

lemma maxRowLen_map_clean (rows : List (List String)) :
    maxRowLen (rows.map (fun row => row.map cleanText)) = maxRowLen rows := by
  unfold maxRowLen
  rw [List.foldl_map]
  congr 1
  funext a r
  simp

/-- C8: for a raw table with at least one row, every row of the normalized grid
    has length equal to the maximum original row width; a raw table with no rows
    yields the explicitly empty result with no further processing. -/
theorem C8_grid_normalization :
    (∀ (rows : List (List String)), rows ≠ [] →
      ∀ r ∈ normalizeRows (rows.map (fun row => row.map cleanText))
          (maxRowLen (rows.map (fun row => row.map cleanText))),
        r.length = maxRowLen rows) ∧
    (∀ cb, processTable [] cb = .emptyInput) := by
  constructor
  · intro rows _ r hr
    rw [← maxRowLen_map_clean rows]
    set cleaned := rows.map (fun row => row.map cleanText) with hc
    obtain ⟨x, _, hx⟩ := List.mem_map.mp hr
    subst hx
    simp only [List.length_take, List.length_append, List.length_replicate]
    omega
  · intro cb; rfl

theorem C8_witness :
    (["a", ""] : List String).length = maxRowLen [["a"], ["b", "c"]] :=
  C8_grid_normalization.1 [["a"], ["b", "c"]] (by decide) ["a", ""] (by decide)

/- ── C4: callback handling and start-row bounds ── -/

lemma datatypeScan_fidx_lt : ∀ (ts : List CellType) (i run : Nat) (fidx : Int),
    fidx < (i : Int) → (datatypeScan ts i run fidx).2 < (i : Int) + ts.length := by
  intro ts
  induction ts with
  | nil =>
    intro i run fidx h
    simp only [datatypeScan, List.length_nil]
    push_cast
    omega
  | cons t rest ih =>
    intro i run fidx h
    cases t
    case int =>
      simp only [datatypeScan]
      have hf : (if (run == 0) then (i : Int) else fidx) < ((i + 1 : Nat) : Int) := by
        split
        · push_cast; omega
        · push_cast; omega
      have hb := ih (i + 1) (run + 1) _ hf
      simp only [List.length_cons] at hb ⊢
      push_cast at hb ⊢
      omega
    case float =>
      simp only [datatypeScan]
      have hf : (if (run == 0) then (i : Int) else fidx) < ((i + 1 : Nat) : Int) := by
        split
        · push_cast; omega
        · push_cast; omega
      have hb := ih (i + 1) (run + 1) _ hf
      simp only [List.length_cons] at hb ⊢
      push_cast at hb ⊢
      omega
    case empty =>
      simp only [datatypeScan]
      by_cases hp : run > 0
      · rw [if_pos hp]
        by_cases h2 : run ≥ 2
        · rw [if_pos h2]
          dsimp only
          simp only [List.length_cons]
          push_cast
          omega
        · rw [if_neg h2]
          have hb := ih (i + 1) 0 (-1) (by push_cast; omega)
          simp only [List.length_cons] at hb ⊢
          push_cast at hb ⊢
          omega
      · rw [if_neg hp]
        have hb := ih (i + 1) run fidx (by push_cast; omega)
        simp only [List.length_cons] at hb ⊢
        push_cast at hb ⊢
        omega
    case text =>
      simp only [datatypeScan]
      by_cases h2 : run ≥ 2
      · rw [if_pos h2]
        dsimp only
        simp only [List.length_cons]
        push_cast
        omega
      · rw [if_neg h2]
        have hb := ih (i + 1) 0 (-1) (by push_cast; omega)
        simp only [List.length_cons] at hb ⊢
        push_cast at hb ⊢
        omega

lemma datatypeVote_lt (types : List CellType) (k : Nat)
    (hv : datatypeVote types = some k) : k < types.length := by
  have hb := datatypeScan_fidx_lt types 0 0 (-1) (by omega)
  simp only [datatypeVote] at hv
  split at hv
  · injection hv with hv'
    subst hv'
    push_cast at hb
    omega
  · exact absurd hv (by simp)

lemma firstLenIdx_lt (m : Nat) : ∀ (l : List String) (i j : Nat),
    firstLenIdx m i l = some j → j < i + l.length := by
  intro l
  induction l with
  | nil => intro i j h; simp [firstLenIdx] at h
  | cons t rest ih =>
    intro i j h
    simp only [firstLenIdx] at h
    by_cases he : (t.length == m) = true
    · rw [if_pos he] at h
      injection h with h'
      simp
      omega
    · rw [if_neg he] at h
      have := ih (i + 1) j h
      simp
      omega

lemma patternVote_lt (ts : List String) (k : Nat)
    (hv : patternVote ts = some k) : k < ts.length := by
  simp only [patternVote] at hv
  split at hv
  · rcases hf : firstLenIdx (analyzePatterns ts).1 0 ts with _ | j
    · rw [hf] at hv; exact absurd hv (by simp)
    · rw [hf] at hv
      have hj := firstLenIdx_lt _ _ _ _ hf
      dsimp only at hv
      split at hv
      · injection hv with hv'
        omega
      · exact absurd hv (by simp)
  · exact absurd hv (by simp)

lemma startRowVotes_lt (rows : List (List String)) (n : Nat) :
    ∀ v ∈ startRowVotes rows n, v < rows.length := by
  intro v hv
  unfold startRowVotes at hv
  rw [List.mem_flatMap] at hv
  obtain ⟨c, _, hvc⟩ := hv
  unfold colVotes at hvc
  rw [List.mem_append] at hvc
  have hlen : (columnTexts rows c).length = rows.length := by
    simp [columnTexts]
  rcases hvc with hd | hp
  · have hsome : datatypeVote ((columnTexts rows c).map cellType) = some v := by
      rcases he : datatypeVote ((columnTexts rows c).map cellType) with _ | w
      · rw [he] at hd; simp at hd
      · rw [he] at hd; simp at hd; subst hd; rfl
    have := datatypeVote_lt _ _ hsome
    simpa [hlen] using this
  · have hsome : patternVote (columnTexts rows c) = some v := by
      rcases he : patternVote (columnTexts rows c) with _ | w
      · rw [he] at hp; simp at hp
      · rw [he] at hp; simp at hp; subst hp; rfl
    have := patternVote_lt _ _ hsome
    omega

lemma modeFirst_mem (l : List Nat) (hl : l ≠ []) : modeFirst l ∈ l := by
  have key : ∀ (l' : List Nat) (b : Nat), b ∈ l → (∀ y ∈ l', y ∈ l) →
      l'.foldl (fun best y => if l.count y > l.count best then y else best) b ∈ l := by
    intro l'
    induction l' with
    | nil => intro b hb _; simpa using hb
    | cons y ys ih =>
      intro b hb hsub
      simp only [List.foldl]
      apply ih
      · split
        · exact hsub y (by simp)
        · exact hb
      · intro z hz; exact hsub z (by simp [hz])
  cases l with
  | nil => exact absurd rfl hl
  | cons x xs =>
    show (x :: xs).foldl _ x ∈ x :: xs
    exact key (x :: xs) x (by simp) (fun y hy => hy)

lemma consensus_fst_lt (rows : List (List String)) (n : Nat) (h : rows ≠ []) :
    (consensus (startRowVotes rows n) rows.length).1 < rows.length := by
  have hpos : 0 < rows.length := List.length_pos.mpr h
  rcases hv : startRowVotes rows n with _ | ⟨v, vs⟩
  · simp only [consensus]
    split
    · omega
    · omega
  · simp only [consensus]
    have hm : modeFirst (v :: vs) ∈ (v :: vs) := modeFirst_mem _ (by simp)
    have hm2 : modeFirst (v :: vs) ∈ startRowVotes rows n := by
      rw [hv]; exact hm
    exact startRowVotes_lt rows n _ hm2

lemma adjustAux_total (rows : List (List String)) : ∀ (n : Nat) (i : Int),
    0 ≤ i → i ≤ (rows.length : Int) → ((rows.length : Int) - i).toNat = n →
    ∃ t, adjustAux rows n i = some t ∧ i ≤ t ∧ t ≤ (rows.length : Int) := by
  intro n
  induction n with
  | zero =>
    intro i h0 hle _
    exact ⟨i, rfl, le_refl i, hle⟩
  | succ m ih =>
    intro i h0 hle hn
    have hlt : i < (rows.length : Int) := by omega
    simp only [adjustAux]
    rw [if_pos hlt]
    have hb : i.toNat < rows.length := by omega
    obtain ⟨r, hr⟩ : ∃ r, rows.get? i.toNat = some r :=
      ⟨rows.get ⟨i.toNat, hb⟩, List.get?_eq_get hb⟩
    have hget : pyGetRow rows i = some r := by
      unfold pyGetRow
      rw [if_pos h0]
      exact hr
    rw [hget]
    dsimp only
    by_cases he : rowIsEmpty r = true
    · rw [if_pos he]
      obtain ⟨t, ht, h1, h2⟩ := ih (i + 1) (by omega) (by omega) (by omega)
      exact ⟨t, ht, by omega, h2⟩
    · rw [if_neg he]
      exact ⟨i, rfl, le_refl i, hle⟩

lemma adjustStartRow_total (rows : List (List String)) (i : Int)
    (h0 : 0 ≤ i) (hle : i ≤ (rows.length : Int)) :
    ∃ t, adjustStartRow rows i = some t ∧ i ≤ t ∧ t ≤ (rows.length : Int) := by
  unfold adjustStartRow
  exact adjustAux_total rows _ i h0 hle rfl

lemma applyCallback_noCallback (a : Nat) (b : Confidence) :
    applyCallback .noCallback a b = ((a : Int), b) := by
  unfold applyCallback; split <;> rfl

lemma applyCallback_raises (a : Nat) (b : Confidence) :
    applyCallback .raises a b = ((a : Int), b) := by
  unfold applyCallback; split <;> rfl

lemma applyCallback_retNone (a : Nat) (b : Confidence) :
    applyCallback .retNone a b = ((a : Int), b) := by
  unfold applyCallback; split <;> rfl

lemma applyCallback_retNonInt (a : Nat) (b : Confidence) :
    applyCallback .retNonInt a b = ((a : Int), b) := by
  unfold applyCallback; split <;> rfl

/-- C4 amended: the engine-computed start row always satisfies
    0 ≤ startRow ≤ numRows; a raising callback, a None return and a non-int
    return are all swallowed, leaving the engine value in place; but any integer
    returned by the callback replaces the computed start row with no range
    validation (confidence user-defined), so the final start row can leave
    [0, numRows]. -/
theorem C4_callback_handling (rows : List (List String)) (numCols : Nat)
    (hne : rows ≠ []) :
    (∃ sr conf, inferStartRow rows numCols .noCallback = some (sr, conf) ∧
      0 ≤ sr ∧ sr ≤ (rows.length : Int)) ∧
    inferStartRow rows numCols .raises = inferStartRow rows numCols .noCallback ∧
    inferStartRow rows numCols .retNone = inferStartRow rows numCols .noCallback ∧
    inferStartRow rows numCols .retNonInt = inferStartRow rows numCols .noCallback ∧
    (∀ z : Int, (consensus (startRowVotes rows numCols) rows.length).2 = .low →
      inferStartRow rows numCols (.retInt z) =
        (adjustStartRow rows z).map (fun s => (s, Confidence.userDefined))) := by
  refine ⟨?_, ?_, ?_, ?_, ?_⟩
  · have hlt := consensus_fst_lt rows numCols hne
    simp only [inferStartRow, applyCallback_noCallback]
    obtain ⟨t, ht, h1, h2⟩ := adjustStartRow_total rows
      ((consensus (startRowVotes rows numCols) rows.length).1 : Int)
      (by omega) (by exact_mod_cast le_of_lt hlt)
    refine ⟨t, (consensus (startRowVotes rows numCols) rows.length).2, ?_, by omega, h2⟩
    rw [ht]
    rfl
  · simp only [inferStartRow, applyCallback_raises, applyCallback_noCallback]
  · simp only [inferStartRow, applyCallback_retNone, applyCallback_noCallback]
  · simp only [inferStartRow, applyCallback_retNonInt, applyCallback_noCallback]
  · intro z hlow
    simp only [inferStartRow]
    rcases hsc : consensus (startRowVotes rows numCols) rows.length with ⟨a, b⟩
    rw [hsc] at hlow
    dsimp only at hlow
    subst hlow
    have hap : applyCallback (.retInt z) a .low = (z, .userDefined) := by
      unfold applyCallback
      rw [if_pos rfl]
    rw [hap]

def gridC4 : List (List String) := [["a", "b"], ["c", "d"]]

/-- C4 fails on the code: on a low-confidence 2-row grid a callback returning the
    int 100 — far outside [0, numRows-1] = [0, 1] — replaces the start row with
    no validation, and the final start row 100 violates startRow ≤ numRows = 2. -/
theorem C4_counterexample :
    resultStartRow (processTable gridC4 (.retInt 100)) = some 100 ∧
    resultConfidence (processTable gridC4 (.retInt 100)) = some .userDefined ∧
    ¬ ((100 : Int) ≤ (gridC4.length : Int)) := by
  refine ⟨rfl, rfl, by decide⟩

theorem C4_witness :
    (∃ sr conf, inferStartRow gridC4 2 .noCallback = some (sr, conf) ∧
      0 ≤ sr ∧ sr ≤ (gridC4.length : Int)) ∧
    inferStartRow gridC4 2 .raises = inferStartRow gridC4 2 .noCallback ∧
    inferStartRow gridC4 2 .retNone = inferStartRow gridC4 2 .noCallback ∧
    inferStartRow gridC4 2 .retNonInt = inferStartRow gridC4 2 .noCallback ∧
    (∀ z : Int, (consensus (startRowVotes gridC4 2) gridC4.length).2 = .low →
      inferStartRow gridC4 2 (.retInt z) =
        (adjustStartRow gridC4 z).map (fun s => (s, Confidence.userDefined))) :=
  C4_callback_handling gridC4 2 (by decide)

/- ── Rule engine (scripts/word_to_table.py) ── -/

def startsL : List Char → List Char → Bool
  | [], _ => true
  | _ :: _, [] => false
  | a :: as, b :: bs => a == b && startsL as bs

def hasSubL (p : List Char) : List Char → Bool
  | [] => startsL p []
  | c :: rest => startsL p (c :: rest) || hasSubL p rest

/-- Python substring containment `needle in haystack`. -/
def pyIn (needle haystack : String) : Bool :=
  hasSubL (toL needle) (toL haystack)

/-- Python `str.lower()` (ASCII range). -/
def pyLower (s : String) : String :=
  ofL ((toL s).map Char.toLower)

/-- Behaviour of `bool(re.search(pattern, text))`: the regex engine may also
    raise on a malformed pattern, which the error case models. -/
def ReSearch := String → String → Except Unit Bool

/-- Condition tree of `check_condition`: composites over child lists, leaves on
    header / first-data-row / context text, plus the unrecognized kind. -/
inductive Cond where
  | cor (cs : List Cond)
  | cand (cs : List Cond)
  | headerContains (v : String)
  | headerContainsIC (v : String)
  | notHeaderContainsIC (v : String)
  | headerRegex (v : String)
  | dataContains (v : String)
  | dataRegex (v : String)
  | contextContains (v : String)
  | contextContainsIC (v : String)
  | notContextContainsIC (v : String)
  | unknownKind

mutual

/-- Embeds `check_condition`; exceptions from the regex engine propagate. -/
def checkCondition (rs : ReSearch) (h d ctx : String) : Cond → Except Unit Bool
  | .cor cs => condsOr rs h d ctx cs
  | .cand cs => condsAnd rs h d ctx cs
  | .headerContains v => .ok (pyIn v h)
  | .headerContainsIC v => .ok (pyIn (pyLower v) (pyLower h))
  | .notHeaderContainsIC v => .ok (!(pyIn (pyLower v) (pyLower h)))
  | .headerRegex v => rs v h
  | .dataContains v => .ok (pyIn v d)
  | .dataRegex v => rs v d
  | .contextContains v => .ok (pyIn v ctx)
  | .contextContainsIC v => .ok (pyIn (pyLower v) (pyLower ctx))
  | .notContextContainsIC v => .ok (!(pyIn (pyLower v) (pyLower ctx)))
  | .unknownKind => .ok false

/-- Python `any(...)` over child conditions: short-circuits, propagates errors. -/
def condsOr (rs : ReSearch) (h d ctx : String) : List Cond → Except Unit Bool
  | [] => .ok false
  | c :: rest =>
    match checkCondition rs h d ctx c with
    | .error e => .error e
    | .ok true => .ok true
    | .ok false => condsOr rs h d ctx rest

/-- Python `all(...)` over child conditions: short-circuits, propagates errors. -/
def condsAnd (rs : ReSearch) (h d ctx : String) : List Cond → Except Unit Bool
  | [] => .ok true
  | c :: rest =>
    match checkCondition rs h d ctx c with
    | .error e => .error e
    | .ok false => .ok false
    | .ok true => condsAnd rs h d ctx rest

end

structure Subrule where
  conditions : List Cond
  target : Option String

structure Rule where
  id : String
  conditions : List Cond
  subrules : Option (List Subrule)
  target : Option String
  extraCols : List (String × String)
  contextAction : Option String

/-- A rule "fully matches" when every top-level condition holds. -/
def ruleMatches (rs : ReSearch) (r : Rule) (h d ctx : String) : Except Unit Bool :=
  condsAnd rs h d ctx r.conditions

def firstSubrule (rs : ReSearch) (h d ctx : String) : List Subrule → Except Unit (Option Subrule)
  | [] => .ok none
  | s :: rest =>
    match condsAnd rs h d ctx s.conditions with
    | .error e => .error e
    | .ok true => .ok (some s)
    | .ok false => firstSubrule rs h d ctx rest

/-- Embeds `evaluate_rule`: `.ok none` is the `(None, None)` no-match return;
    `.ok (some (target, extraCols))` is a match, whose target may itself be None. -/
def evaluateRule (rs : ReSearch) (r : Rule) (h d ctx : String) :
    Except Unit (Option (Option String × List (String × String))) :=
  match condsAnd rs h d ctx r.conditions with
  | .error e => .error e
  | .ok false => .ok none
  | .ok true =>
    match r.subrules with
    | some subs =>
      match firstSubrule rs h d ctx subs with
      | .error e => .error e
      | .ok (some s) => .ok (some (s.target, r.extraCols))
      | .ok none =>
        if r.target ≠ some "VARIOUS" then .ok (some (r.target, r.extraCols))
        else .ok none
    | none => .ok (some (r.target, r.extraCols))

/-- Python truthiness of the returned target in `if target:`. -/
def optTruthy : Option String → Bool
  | some t => t != ""
  | none => false

/-- The rule loop of `parse_docx` for one table: first rule whose evaluation
    yields a truthy target wins; rules yielding no usable target are passed over. -/
def scanRules (rs : ReSearch) (rules : List Rule) (h d ctx : String) :
    Except Unit (Option (Rule × String × List (String × String))) :=
  match rules with
  | [] => .ok none
  | r :: rest =>
    match evaluateRule rs r h d ctx with
    | .error e => .error e
    | .ok none => scanRules rs rest h d ctx
    | .ok (some (tgt, ec)) =>
      match tgt with
      | some t => if t != "" then .ok (some (r, t, ec)) else scanRules rs rest h d ctx
      | none => scanRules rs rest h d ctx

inductive PBlock where
  | para (text : String)
  | table (cells : List (List String))

def joinWith (sep : String) : List String → String
  | [] => ""
  | [x] => x
  | x :: xs => x ++ sep ++ joinWith sep xs

/-- Embeds `get_table_header_text`. -/
def headerTextOf (cells : List (List String)) : String :=
  match cells with
  | [] => ""
  | r0 :: _ => joinWith " " (r0.map cleanText)

/-- Embeds `get_first_data_row_text`. -/
def firstDataRowTextOf (cells : List (List String)) : String :=
  match cells with
  | _ :: r1 :: _ => joinWith " " (r1.map cleanText)
  | _ => ""

/-- Right word boundary `\b` after "DN". -/
def dnBoundary : List Char → Bool
  | [] => true
  | c :: _ => !isWordChar c

/-- Matches `DN\b` case-insensitively at the head of the input. -/
def dnAt : List Char → Bool
  | c1 :: c2 :: rest =>
    (c1 == 'D' || c1 == 'd') && (c2 == 'N' || c2 == 'n') && dnBoundary rest
  | _ => false

/-- Matches `\s+DN\b` at the head of the input: since 'D'/'d' is not whitespace,
    the greedy run of `\s+` can only succeed by consuming all leading whitespace. -/
def wsThenDN : List Char → Bool
  | [] => false
  | c :: rest => isSpaceChar c && dnAt (rest.dropWhile isSpaceChar)

/-- Search of `re.search(r'^(.*?)\s+DN\b', text, re.IGNORECASE)`: the lazy group
    takes the shortest newline-free prefix after which `\s+DN\b` matches; a
    newline stops the search because `.` cannot cross it. -/
def findSplit : Nat → List Char → Option Nat
  | i, cs =>
    if wsThenDN cs then some i
    else
      match cs with
      | [] => none
      | c :: rest => if c == '\n' then none else findSplit (i + 1) rest

/-- Embeds `truncate_assemblies_context`. -/
def truncateAssembliesContext (text : String) : String :=
  match findSplit 0 (toL text) with
  | some i => pyStrip (ofL ((toL text).take i))
  | none => pyStrip text

def dictInsert (d : List (String × String)) (k v : String) : List (String × String) :=
  if d.any (fun p => p.1 == k) then d.map (fun p => if p.1 == k then (p.1, v) else p)
  else d ++ [(k, v)]

/-- Python `dict(zip(keys, text))`: later duplicate keys overwrite in place. -/
def dictOfPairs (ps : List (String × String)) : List (String × String) :=
  ps.foldl (fun d p => dictInsert d p.1 p.2) []

/-- Embeds `parse_table_to_df` (simple mode): first row supplies the keys, each
    later row zips against them (zip stops at the shorter side). -/
def parseTableToDf (cells : List (List String)) : List (List (String × String)) :=
  match cells.map (fun r => r.map cleanText) with
  | [] => []
  | keys :: rest =>
    if keys.isEmpty then []
    else rest.map (fun row => dictOfPairs (keys.zip row))

/-- Context-action column assignment of `parse_docx` for the matched rule. -/
def applyContextAction (r : Rule) (ctx : String) : Option (String × String) :=
  if r.contextAction == some "full" then some ("Bolting Type", ctx)
  else if r.contextAction == some "truncated" then
    some ("Assembly Type", truncateAssembliesContext ctx)
  else none

/-- One stored table: the materialized rows plus the column assignments
    (`df[k] = v`) applied after the match. -/
structure StoredTable where
  df : List (List (String × String))
  contextCol : Option (String × String)
  extraCols : List (String × String)

abbrev Store := List (String × List StoredTable)

/-- Embeds `data_store[target].append(df)` with on-demand key creation. -/
def storeAppend (store : Store) (k : String) (e : StoredTable) : Store :=
  if store.any (fun p => p.1 == k) then
    store.map (fun p => if p.1 == k then (p.1, p.2 ++ [e]) else p)
  else store ++ [(k, [e])]

def storeLookup (store : Store) (k : String) : Option (List StoredTable) :=
  match store.find? (fun p => p.1 == k) with
  | some p => some p.2
  | none => none

/-- The preset `data_store` keys of `parse_docx`. -/
def initialStore : Store :=
  [("Bolting_Data", []), ("Assemblies_Data", []), ("Reducing_Piping_Data", []),
   ("Schedule_Table", []), ("Branch_Conn", []), ("Code_Exp", []), ("Pipe_Table", []),
   ("Flange_Table", []), ("Fittings_Table", []), ("Red_Fit_Table", []),
   ("Valves_Table", []), ("Instruments_Table", []), ("Misc_Table", []),
   ("Piping_Comps_Pg4", [])]

/-- Embeds the block loop of `parse_docx`: paragraphs update the running context,
    tables run the rule scan; an exception anywhere aborts the whole pass. -/
def parseBlocks (rs : ReSearch) (rules : List Rule) :
    List PBlock → String → Store → Except Unit Store
  | [], _, store => .ok store
  | .para t :: rest, ctx, store =>
    let t2 := cleanText t
    parseBlocks rs rules rest (if t2 != "" then t2 else ctx) store
  | .table cells :: rest, ctx, store =>
    match scanRules rs rules (headerTextOf cells) (firstDataRowTextOf cells) ctx with
    | .error e => .error e
    | .ok none => parseBlocks rs rules rest ctx store
    | .ok (some (r, t, ec)) =>
      parseBlocks rs rules rest ctx
        (storeAppend store t ⟨parseTableToDf cells, applyContextAction r ctx, ec⟩)

def trivialReSearch : ReSearch := fun _ _ => .ok false

/- ── C5: first-match semantics of the rule loop ── -/

def ruleC5a : Rule := ⟨"R1", [], some [⟨[.unknownKind], some "T1"⟩], some "VARIOUS", [], none⟩

def ruleC5b : Rule := ⟨"R2", [], none, some "T2", [], none⟩

def ruleC5c : Rule := ⟨"R3", [], none, some "T3", [], none⟩

/-- C5 fails on the code: both rules fully match (all top-level conditions hold),
    yet the first one resolves to no target (VARIOUS sentinel, no matching
    subrule), so the loop keeps scanning and the classification reflects the
    second rule — a subsequent rule was evaluated after a full match. -/
theorem C5_counterexample :
    ruleMatches trivialReSearch ruleC5a "h" "d" "c" = .ok true ∧
    ruleMatches trivialReSearch ruleC5b "h" "d" "c" = .ok true ∧
    evaluateRule trivialReSearch ruleC5a "h" "d" "c" = .ok none ∧
    scanRules trivialReSearch [ruleC5a, ruleC5b] "h" "d" "c" =
      .ok (some (ruleC5b, "T2", [])) := by
  refine ⟨rfl, rfl, rfl, rfl⟩

def evalYieldsNoTarget (res : Option (Option String × List (String × String))) : Prop :=
  match res with
  | none => True
  | some (tgt, _) => optTruthy tgt = false

/-- C5 amended: the classification reflects the first rule that both fully
    matches and yields a usable (non-empty) target; rules before it that match
    without yielding a usable target are passed over, and rules after it are
    never consulted, so a table is classified by at most one rule. -/
theorem C5_first_usable_match (rs : ReSearch) (rules1 : List Rule) (r : Rule)
    (rules2 : List Rule) (h d ctx t : String) (ec : List (String × String))
    (hprev : ∀ r1 ∈ rules1, ∃ res, evaluateRule rs r1 h d ctx = .ok res ∧ evalYieldsNoTarget res)
    (hr : evaluateRule rs r h d ctx = .ok (some (some t, ec)))
    (ht : t ≠ "") :
    scanRules rs (rules1 ++ r :: rules2) h d ctx = .ok (some (r, t, ec)) := by
  induction rules1 with
  | nil =>
    simp only [List.nil_append, scanRules, hr]
    rw [if_pos (by simpa using ht)]
  | cons r1 rest ih =>
    obtain ⟨res, hres, hnone⟩ := hprev r1 (by simp)
    simp only [List.cons_append, scanRules, hres]
    cases res with
    | none => exact ih (fun x hx => hprev x (by simp [hx]))
    | some p =>
      obtain ⟨tgt, ec1⟩ := p
      cases tgt with
      | none => exact ih (fun x hx => hprev x (by simp [hx]))
      | some t1 =>
        have ht1 : t1 = "" := by simpa [evalYieldsNoTarget, optTruthy] using hnone
        subst ht1
        dsimp only
        rw [if_neg (by simp)]
        exact ih (fun x hx => hprev x (by simp [hx]))

theorem C5_witness :
    scanRules trivialReSearch ([ruleC5a] ++ ruleC5b :: [ruleC5c]) "h" "d" "c" =
      .ok (some (ruleC5b, "T2", [])) :=
  C5_first_usable_match trivialReSearch [ruleC5a] ruleC5b [ruleC5c] "h" "d" "c" "T2" []
    (by
      intro r1 hr1
      rw [List.mem_singleton] at hr1
      subst hr1
      exact ⟨none, rfl, trivial⟩)
    rfl (by decide)

/- ── C6: rule-evaluation failures abort the scan ── -/

/-- Models `re.search` raising `re.error` on the malformed pattern "(". -/
def badReSearch : ReSearch := fun p _ => if p == "(" then .error () else .ok false

def ruleC6 : Rule := ⟨"RB", [.headerRegex "("], none, some "T", [], none⟩

/-- C6 fails on the code: a malformed regex pattern in a regex leaf raises during
    rule evaluation, and `parse_docx` has no handler around the rule loop, so the
    exception escapes the whole document pass instead of degrading to "no result
    for this table". -/
theorem C6_counterexample :
    badReSearch "(" (headerTextOf [["A"], ["B"]]) = .error () ∧
    parseBlocks badReSearch [ruleC6] [.table [["A"], ["B"]]] "" initialStore =
      .error () := by
  refine ⟨rfl, rfl⟩

/-- C6 amended: an exception raised while evaluating a rule's conditions is not
    caught by `parse_docx` — it propagates out of the block loop and aborts the
    scan; only unrecognized condition kinds are non-fatal, evaluating to false. -/
theorem C6_rule_errors_propagate :
    (∀ (rs : ReSearch) (rules : List Rule) (cells : List (List String))
        (rest : List PBlock) (ctx : String) (store : Store),
      scanRules rs rules (headerTextOf cells) (firstDataRowTextOf cells) ctx = .error () →
      parseBlocks rs rules (.table cells :: rest) ctx store = .error ()) ∧
    (∀ (rs : ReSearch) (h d ctx : String),
      checkCondition rs h d ctx .unknownKind = .ok false) := by
  constructor
  · intro rs rules cells rest ctx store hscan
    simp only [parseBlocks, hscan]
  · intro rs h d ctx
    rfl

theorem C6_witness :
    parseBlocks badReSearch [ruleC6] [.table [["X"]], .para "p"] "cc" initialStore =
      .error () :=
  C6_rule_errors_propagate.1 badReSearch [ruleC6] [["X"]] [.para "p"] "cc" initialStore rfl

/- ── C7: context truncation at "DN" ── -/

def noNl (cs : List Char) : Bool :=
  cs.all (fun c => !(c == '\n'))

/-- Declarative split condition: the prefix of length `i` is newline-free and the
    remainder starts with `\s+DN\b`. -/
def splitOk (cs : List Char) (i : Nat) : Bool :=
  noNl (cs.take i) && wsThenDN (cs.drop i)

lemma splitOk_zero (cs : List Char) : splitOk cs 0 = wsThenDN cs := by
  simp [splitOk, noNl]

lemma splitOk_succ_cons (c : Char) (rest : List Char) (j : Nat)
    (hc : (c == '\n') = false) : splitOk (c :: rest) (j + 1) = splitOk rest j := by
  simp [splitOk, noNl, hc]

lemma findSplit_shift (cs : List Char) :
    ∀ i, findSplit i cs = (findSplit 0 cs).map (fun j => j + i) := by
  induction cs with
  | nil => intro i; simp [findSplit, wsThenDN]
  | cons c rest ih =>
    intro i
    by_cases hws : wsThenDN (c :: rest) = true
    · simp [findSplit, hws]
    · by_cases hnl : (c == '\n') = true
      · simp [findSplit, hws, hnl]
      · rw [show findSplit i (c :: rest) = findSplit (i + 1) rest from by
          simp [findSplit, hws, hnl]]
        rw [show findSplit 0 (c :: rest) = findSplit 1 rest from by
          simp [findSplit, hws, hnl]]
        rw [ih (i + 1), ih 1, Option.map_map]
        rcases hx : findSplit 0 rest with _ | v
        · simp
        · simp [Function.comp]
          omega

lemma findSplit_spec (cs : List Char) :
    (∀ i, findSplit 0 cs = some i →
      splitOk cs i = true ∧ ∀ j, j < i → splitOk cs j = false) ∧
    (findSplit 0 cs = none → ∀ j, splitOk cs j = false) := by
  induction cs with
  | nil =>
    constructor
    · intro i h
      simp [findSplit, wsThenDN] at h
    · intro _ j
      simp [splitOk, wsThenDN]
  | cons c rest ih =>
    by_cases hws : wsThenDN (c :: rest) = true
    · have hf : findSplit 0 (c :: rest) = some 0 := by simp [findSplit, hws]
      constructor
      · intro i h
        rw [hf] at h
        injection h with h'
        subst h'
        refine ⟨by rw [splitOk_zero]; exact hws, ?_⟩
        intro j hj
        omega
      · intro h
        rw [hf] at h
        cases h
    · by_cases hnl : (c == '\n') = true
      · have hc : c = '\n' := by simpa using hnl
        have hf : findSplit 0 (c :: rest) = none := by simp [findSplit, hws, hnl]
        constructor
        · intro i h
          rw [hf] at h
          cases h
        · intro _ j
          cases j with
          | zero =>
            rw [splitOk_zero]
            exact Bool.eq_false_iff.mpr hws
          | succ k =>
            subst hc
            simp [splitOk, noNl]
      · have hcne : (c == '\n') = false := by
          rw [Bool.eq_false_iff]; exact hnl
        have hstep : findSplit 0 (c :: rest) = (findSplit 0 rest).map (fun j => j + 1) := by
          rw [show findSplit 0 (c :: rest) = findSplit 1 rest from by
            simp [findSplit, hws, hnl]]
          exact findSplit_shift rest 1
        constructor
        · intro i h
          rw [hstep] at h
          obtain ⟨j0, hj0, hij⟩ := Option.map_eq_some'.mp h
          obtain ⟨hok, hmin⟩ := ih.1 j0 hj0
          subst hij
          refine ⟨?_, ?_⟩
          · rw [splitOk_succ_cons _ _ _ hcne]
            exact hok
          · intro j hj
            cases j with
            | zero =>
              rw [splitOk_zero]
              exact Bool.eq_false_iff.mpr hws
            | succ k =>
              rw [splitOk_succ_cons _ _ _ hcne]
              exact hmin k (by omega)
        · intro h j
          rw [hstep] at h
          have hr : findSplit 0 rest = none := by
            rcases hx : findSplit 0 rest with _ | v
            · rfl
            · rw [hx] at h; simp at h
          cases j with
          | zero =>
            rw [splitOk_zero]
            exact Bool.eq_false_iff.mpr hws
          | succ k =>
            rw [splitOk_succ_cons _ _ _ hcne]
            exact ih.2 hr k

/-- C7 amended: the attached value is the context text truncated at, and
    excluding, the first case-insensitive standalone "DN" token that is preceded
    by at least one whitespace character within a newline-free prefix — the
    preceding whitespace is excluded too and the prefix trimmed; when no such
    occurrence exists the full trimmed context text is attached. -/
theorem C7_truncated_context (text : String) :
    (∀ i, findSplit 0 (toL text) = some i →
      splitOk (toL text) i = true ∧
      (∀ j, j < i → splitOk (toL text) j = false) ∧
      truncateAssembliesContext text = pyStrip (ofL ((toL text).take i))) ∧
    (findSplit 0 (toL text) = none →
      (∀ j, splitOk (toL text) j = false) ∧
      truncateAssembliesContext text = pyStrip text) ∧
    (∀ r : Rule, r.contextAction = some "truncated" →
      applyContextAction r text = some ("Assembly Type", truncateAssembliesContext text)) := by
  refine ⟨?_, ?_, ?_⟩
  · intro i hi
    obtain ⟨h1, h2⟩ := (findSplit_spec (toL text)).1 i hi
    refine ⟨h1, h2, ?_⟩
    unfold truncateAssembliesContext
    rw [hi]
  · intro hn
    refine ⟨(findSplit_spec (toL text)).2 hn, ?_⟩
    unfold truncateAssembliesContext
    rw [hn]
  · intro r hca
    unfold applyContextAction
    rw [hca]
    rfl

/-- Left and right word boundaries around "DN" at position `i`. -/
def isStandaloneDNAt (cs : List Char) (i : Nat) : Bool :=
  (match cs.drop i with
   | 'D' :: 'N' :: rest => dnBoundary rest
   | _ => false) &&
  (i == 0 || (match cs.get? (i - 1) with
              | some c => !isWordChar c
              | none => false))

def ruleC7 : Rule := ⟨"RA", [], none, some "Assemblies_Data", [], some "truncated"⟩

/-- C7 fails on the code: in the context "DN 50" the token "DN" occurs standalone
    at position 0, so the claim demands the attached value be the trimmed text
    before it — the empty string — but the regex requires whitespace before "DN",
    does not match, and the full text "DN 50" is attached instead. -/
theorem C7_counterexample :
    isStandaloneDNAt (toL "DN 50") 0 = true ∧
    pyStrip (ofL ((toL "DN 50").take 0)) = "" ∧
    truncateAssembliesContext "DN 50" = "DN 50" ∧
    applyContextAction ruleC7 "DN 50" = some ("Assembly Type", "DN 50") ∧
    ("DN 50" : String) ≠ "" := by
  refine ⟨rfl, rfl, rfl, rfl, by decide⟩

def textC7 : String := "Drain or vent point DN 50 Fig.H DN 50 600"

theorem C7_witness :
    splitOk (toL textC7) 19 = true ∧
    (∀ j, j < 19 → splitOk (toL textC7) j = false) ∧
    truncateAssembliesContext textC7 = pyStrip (ofL ((toL textC7).take 19)) := by
  have h := (C7_truncated_context textC7).1 19 rfl
  exact ⟨h.1, h.2.1, h.2.2⟩

/- ── C10: a rule with no subrules keeps the VARIOUS target ── -/

/-- C10: when a rule defines no subrules and its top-level conditions hold,
    `evaluate_rule` returns the rule's own target even when it is the sentinel
    "VARIOUS", and `parse_docx` stores the table under the key "VARIOUS"; the
    sentinel is special-cased only in the subrules branch, where a fully matched
    rule whose subrules all fail yields no result. -/
theorem C10_various_is_plain_target (rs : ReSearch) (r : Rule)
    (cells : List (List String)) (ctx : String)
    (hsub : r.subrules = none) (htgt : r.target = some "VARIOUS")
    (hcond : condsAnd rs (headerTextOf cells) (firstDataRowTextOf cells) ctx r.conditions = .ok true) :
    evaluateRule rs r (headerTextOf cells) (firstDataRowTextOf cells) ctx =
      .ok (some (some "VARIOUS", r.extraCols)) ∧
    parseBlocks rs [r] [.table cells] ctx initialStore =
      .ok (storeAppend initialStore "VARIOUS"
        ⟨parseTableToDf cells, applyContextAction r ctx, r.extraCols⟩) ∧
    storeLookup (storeAppend initialStore "VARIOUS"
        ⟨parseTableToDf cells, applyContextAction r ctx, r.extraCols⟩) "VARIOUS" =
      some [⟨parseTableToDf cells, applyContextAction r ctx, r.extraCols⟩] ∧
    (∀ (r2 : Rule) (subs : List Subrule),
      r2.subrules = some subs → r2.target = some "VARIOUS" →
      condsAnd rs (headerTextOf cells) (firstDataRowTextOf cells) ctx r2.conditions = .ok true →
      firstSubrule rs (headerTextOf cells) (firstDataRowTextOf cells) ctx subs = .ok none →
      evaluateRule rs r2 (headerTextOf cells) (firstDataRowTextOf cells) ctx = .ok none) := by
  have heval : evaluateRule rs r (headerTextOf cells) (firstDataRowTextOf cells) ctx =
      .ok (some (some "VARIOUS", r.extraCols)) := by
    unfold evaluateRule
    rw [hcond, hsub, htgt]
  have hscan : scanRules rs [r] (headerTextOf cells) (firstDataRowTextOf cells) ctx =
      .ok (some (r, "VARIOUS", r.extraCols)) := by
    unfold scanRules
    rw [heval]
    rfl
  refine ⟨heval, ?_, rfl, ?_⟩
  · simp only [parseBlocks, hscan]
  · intro r2 subs hsub2 htgt2 hcond2 hfs
    unfold evaluateRule
    rw [hcond2]
    dsimp only
    rw [hsub2]
    dsimp only
    rw [hfs]
    dsimp only
    rw [htgt2]
    simp

def ruleC10 : Rule := ⟨"RV", [], none, some "VARIOUS", [("K", "V")], none⟩

theorem C10_witness :
    evaluateRule trivialReSearch ruleC10 (headerTextOf [["H1"], ["1"]])
        (firstDataRowTextOf [["H1"], ["1"]]) "x" =
      .ok (some (some "VARIOUS", ruleC10.extraCols)) ∧
    parseBlocks trivialReSearch [ruleC10] [.table [["H1"], ["1"]]] "x" initialStore =
      .ok (storeAppend initialStore "VARIOUS"
        ⟨parseTableToDf [["H1"], ["1"]], applyContextAction ruleC10 "x", ruleC10.extraCols⟩) ∧
    storeLookup (storeAppend initialStore "VARIOUS"
        ⟨parseTableToDf [["H1"], ["1"]], applyContextAction ruleC10 "x", ruleC10.extraCols⟩)
        "VARIOUS" =
      some [⟨parseTableToDf [["H1"], ["1"]], applyContextAction ruleC10 "x", ruleC10.extraCols⟩] ∧
    (∀ (r2 : Rule) (subs : List Subrule),
      r2.subrules = some subs → r2.target = some "VARIOUS" →
      condsAnd trivialReSearch (headerTextOf [["H1"], ["1"]])
        (firstDataRowTextOf [["H1"], ["1"]]) "x" r2.conditions = .ok true →
      firstSubrule trivialReSearch (headerTextOf [["H1"], ["1"]])
        (firstDataRowTextOf [["H1"], ["1"]]) "x" subs = .ok none →
      evaluateRule trivialReSearch r2 (headerTextOf [["H1"], ["1"]])
        (firstDataRowTextOf [["H1"], ["1"]]) "x" = .ok none) :=
  C10_various_is_plain_target trivialReSearch ruleC10 [["H1"], ["1"]] "x" rfl rfl rfl

/- ── C9: table name from the paragraph below ── -/

/-- Embeds `_detect_table_name_below`, applied to the blocks after the table:
    only the first following block matters — a table stops the search, and a
    paragraph is consulted once, returning its text only when non-empty and
    shorter than 80 characters. -/
def detectNameBelow : List PBlock → Option String
  | [] => none
  | .table _ :: _ => none
  | .para raw :: _ =>
    let t := cleanText raw
    if t != "" && decide (t.length < 80) then some t else none

/-- Embeds `_detect_table_name_first_row`. -/
def detectNameFirstRow (df : Df) : Option String :=
  match df.rows with
  | [] => none
  | first :: _ =>
    let nonEmpty := (first.map pyStrip).filter (fun t => t != "")
    let uniq := nonEmpty.eraseDups
    if !nonEmpty.isEmpty && (uniq.length == 1 || nonEmpty.length == 1) then
      some (ofL ((toL (nonEmpty.headD "")).take 60))
    else none

def pyStartsWith (s pre : String) : Bool :=
  startsL (toL pre) (toL s)

/-- Embeds the name-priority chain of `extract_all_with_pages`: paragraph below,
    first-row title, then non-generic column concatenation. -/
def nameTable (afterBlocks : List PBlock) (df : Df) (tableCount : Nat) : String :=
  let n1 := (detectNameBelow afterBlocks).getD ""
  if n1 != "" then n1
  else
    let n2 := (detectNameFirstRow df).getD ""
    if n2 != "" then n2
    else
      let ng := df.columns.filter (fun c => !(pyStartsWith c "Column_"))
      if !ng.isEmpty then joinWith "_" ng else "Table_" ++ toString tableCount

def dfC9 : Df := ⟨["ID", "Value"], [["1", "2"]]⟩

/-- C9 fails on the code: a table immediately followed by an empty paragraph —
    whose text has length 0 < 80 — does not get that text as its name; the
    search breaks on the empty text and the name falls through to the
    column-derived "ID_Value". -/
theorem C9_counterexample :
    cleanText "" = "" ∧
    ("" : String).length < 80 ∧
    nameTable [.para ""] dfC9 1 = "ID_Value" ∧
    ("ID_Value" : String) ≠ "" := by
  refine ⟨rfl, by decide, rfl, by decide⟩

/-- C9 amended: when the first block after the table is a paragraph whose
    normalized text is non-empty and shorter than 80 characters, the Table Namer
    returns that text, even when column-derived names are available. -/
theorem C9_paragraph_below_name (raw : String) (rest : List PBlock) (df : Df)
    (cnt : Nat) (hne : cleanText raw ≠ "") (hlen : (cleanText raw).length < 80) :
    nameTable (.para raw :: rest) df cnt = cleanText raw := by
  simp only [nameTable, detectNameBelow]
  rw [if_pos (by simp [hne, hlen])]
  simp [hne, hlen]

theorem C9_witness :
    nameTable [.para "Pipe Table"] dfC9 1 = cleanText "Pipe Table" :=
  C9_paragraph_below_name "Pipe Table" [] dfC9 1 (by decide) (by decide)

end WordToTable
